import Mathlib

/-!
Verification development for the Sahayak autonomous browser assistant.

The repository ships a React frontend (SahayakMain.jsx) together with the
implementation guide that documents the backend modules (privacy layer,
selector healing, autonomous loop, human-behavior simulation, vision
verification).  The frontend handlers are embedded directly from the JSX
source; backend behaviour that is only documented is modelled from the
specification, and each such definition says so in its doc comment.

All machine integers are modelled as Nat; screenshots are grids of
grayscale pixel values; fallible operations return Option or Except.
-/

namespace Sahayak

/-! ## Screenshot model and the privacy blur (Phase 9, `_blur_sensitive_areas`)

The source detects sensitive inputs, takes the bounding box of each, crops
that region out of the screenshot, applies a blur of radius 20 to the crop
and pastes it back.  The blur is modelled as a radius-bounded box average
over the cropped region (integer pixel values, integer division), keeping
the crop-blur-paste structure of the source: the averaging window of a
pixel is clipped to the detected bounding box, exactly as a blur applied
to the crop alone would be.
-/

/-- A screenshot: rows of grayscale pixel values. -/
abbrev Image := List (List Nat)

/-- A bounding box as returned by `bounding_box()` in the source. -/
structure Rect where
  x : Nat
  y : Nat
  w : Nat
  h : Nat
deriving DecidableEq, Repr

/-- Whether pixel `(px, py)` lies inside the box. -/
def Rect.containsPt (b : Rect) (px py : Nat) : Bool :=
  decide (b.x ≤ px) && decide (px < b.x + b.w) &&
  decide (b.y ≤ py) && decide (py < b.y + b.h)

/-- Pixel lookup; out-of-range coordinates read as 0. -/
def pixel (img : Image) (px py : Nat) : Nat :=
  (((img.get? py).getD []).get? px).getD 0

/-- All pixel coordinates of a bounding box (the crop). -/
def boxPoints (b : Rect) : List (Nat × Nat) :=
  (List.range b.h).flatMap fun dy => (List.range b.w).map fun dx => (b.x + dx, b.y + dy)

/-- Blurred value of pixel `(px, py)`: the average of the pixels of the
crop that lie within radius `r` of it (the blur sees only the crop). -/
def blurredAt (r : Nat) (img : Image) (b : Rect) (px py : Nat) : Nat :=
  let win := (boxPoints b).filter fun q =>
    decide (q.1 ≤ px + r) && decide (px ≤ q.1 + r) &&
    decide (q.2 ≤ py + r) && decide (py ≤ q.2 + r)
  (win.map fun q => pixel img q.1 q.2).sum / win.length

/-- One row of the paste-back: pixels inside the box are replaced by their
blurred value, pixels outside are kept. `px0` is the column of the head. -/
def blurRow (r : Nat) (img : Image) (b : Rect) (py : Nat) : Nat → List Nat → List Nat
  | _, [] => []
  | px, v :: rest =>
    (if b.containsPt px py then blurredAt r img b px py else v) :: blurRow r img b py (px + 1) rest

/-- All rows of the paste-back. `py0` is the row index of the head. -/
def blurRows (r : Nat) (img : Image) (b : Rect) : Nat → List (List Nat) → List (List Nat)
  | _, [] => []
  | py, row :: rest => blurRow r img b py 0 row :: blurRows r img b (py + 1) rest

/-- Crop the box out of `img`, blur it with radius `r`, paste it back. -/
def blurRegion (r : Nat) (img : Image) (b : Rect) : Image :=
  blurRows r img b 0 img

/-- The `_blur_sensitive_areas` transform: for every detected sensitive input, blur its
bounding box with the fixed radius 20 (GaussianBlur(radius=20) in the
source), modelled at the fixed blur radius of the source. -/
def blurSensitiveAreas (regions : List Rect) (img : Image) : Image :=
  regions.foldl (fun acc b => blurRegion 20 acc b) img

/-! ## Privacy gate in front of the Vision Verifier -/

/-- The privacy taxonomy kind raised when redaction cannot be confirmed. -/
inductive PrivacyError where
  | privacyViolationRisk
deriving DecidableEq, Repr

/-- Modelled from the spec: the privacy gate of `privacy_layer.py`, which is
not under src/ (only its documentation is).  For every detected
SensitiveRegion the blur transform is applied to the screenshot; when the
transform fails for some region the engine refuses to send the screenshot
onward and raises PrivacyViolationRisk instead of passing it unredacted.
`blurStep` is the (fallible) blur transform for one region. -/
def redactDetected (blurStep : Rect → Image → Option Image) :
    List Rect → Image → Except PrivacyError Image
  | [], img => .ok img
  | b :: rest, img =>
    match blurStep b img with
    | some redacted => redactDetected blurStep rest redacted
    | none => .error .privacyViolationRisk

/-- The screenshot `out` is the input `img` with every detected region
redacted in order, each redaction confirmed (no blur step failed). -/
def confirmedRedaction (blurStep : Rect → Image → Option Image)
    (regions : List Rect) (img out : Image) : Prop :=
  regions.foldlM (fun acc b => blurStep b acc) img = some out

/-! ## Selector Resolver (Phase 6 / `selector_healer.py`)

The resolver itself lives in the backend, which is not under src/; it is
modelled from the spec: five strategies tried in fixed priority order,
each returning Found or NotFound, first match wins, the successful
strategy recorded, and a ResolutionError enumerating every attempted
strategy when the whole chain fails.
-/

/-- The five resolution strategies, in the fixed priority order of the spec. -/
inductive Strategy where
  | exactStructural
  | relaxedStructural
  | visibleText
  | containsTextPath
  | ocrCoordinate
deriving DecidableEq, Repr

/-- The fixed priority order of the strategy chain. -/
def strategyChain : List Strategy :=
  [.exactStructural, .relaxedStructural, .visibleText, .containsTextPath, .ocrCoordinate]

/-- What a strategy finds: a concrete element or a click coordinate. -/
inductive Located where
  | element (selector : String)
  | coordinate (x y : Nat)
deriving DecidableEq, Repr

/-- A successful resolution: where the target is, and which strategy found
it (recorded for telemetry and healing decisions). -/
structure Resolution where
  strategy_used : Strategy
  located : Located
deriving DecidableEq, Repr

/-- The error returned when the chain is exhausted, enumerating every
attempted strategy. -/
structure ResolutionError where
  attempted : List Strategy
deriving DecidableEq, Repr

/-- Modelled from the spec: the resolver walks the remaining chain,
accumulating the strategies already attempted; a Found result wins at
once, and an exhausted chain yields the error listing all attempts.
`ev` evaluates one (pure) strategy on the fixed page state and target. -/
def resolveAux (ev : Strategy → Option Located) :
    List Strategy → List Strategy → Except ResolutionError Resolution
  | tried, [] => .error ⟨tried⟩
  | tried, s :: rest =>
    match ev s with
    | some loc => .ok ⟨s, loc⟩
    | none => resolveAux ev (tried ++ [s]) rest

/-- Modelled from the spec: resolve a target by trying the five strategies
of `strategyChain` in order. -/
def resolveTarget (ev : Strategy → Option Located) : Except ResolutionError Resolution :=
  resolveAux ev [] strategyChain

/-! ## Autonomous loop (Phase 5, `autonomous_agent.py`)

Embedded from the loop sketch in the source:
`while not goal_achieved and iteration < max_iterations:` followed by one
observe-decide-act-verify round and `iteration++`.  One executed round is
one state transition; leaving the loop into a terminal state (Completed or
Failed) is one more transition.  The decision of each round is a function
of the iteration index, which quantifies over every possible sequence of
verifier responses.
-/

/-- What Deciding can signal in one round of the loop. -/
inductive Decision where
  | goalAchieved
  | fatalError
  | act (description : String)
deriving DecidableEq, Repr

/-- Terminal outcome of an autonomous task. -/
inductive TaskOutcome where
  | completed
  | failedIterationCap
  | failedFatal
deriving DecidableEq, Repr

/-- Whether a decision continues the loop with another action. -/
def Decision.isAct : Decision → Bool
  | .act _ => true
  | _ => false

/-- Modelled from the spec: the default iteration cap of autonomous mode. -/
def maxIterationsDefault : Nat := 20

/-- The loop body: `fuel` is how many more iterations the cap allows
(`max_iterations - iteration`), `it` the current iteration index.  Returns
the number of state transitions taken and the terminal outcome. -/
def loopAux (decider : Nat → Decision) : Nat → Nat → Nat × TaskOutcome
  | _, 0 => (1, .failedIterationCap)
  | it, fuel + 1 =>
    match decider it with
    | .goalAchieved => (1, .completed)
    | .fatalError => (1, .failedFatal)
    | .act _ =>
      let r := loopAux decider (it + 1) fuel
      (r.1 + 1, r.2)

/-- The autonomous loop: starts at iteration 0 with the configured cap. -/
def autonomousLoop (decider : Nat → Decision) (maxIterations : Nat) : Nat × TaskOutcome :=
  loopAux decider 0 maxIterations

/-! ## Vision Verifier schema validation

The verifier delegates to an external vision capability and validates the
returned schema itself; the validating code is backend code not under
src/, so it is modelled from the spec.
-/

/-- The loosely-typed payload returned by the external vision capability:
every field may be missing.  A wholly unparseable response is `none` at
the outer `Option`. -/
structure RawVisionFields where
  description : Option String
  success : Option Bool
  elements_found : Option (List String)
  errors : Option (List String)
  next_action_hint : Option String
deriving DecidableEq, Repr

/-- The validated judgement the verifier hands to the Orchestrator. -/
structure Judgement where
  description : String
  success : Bool
  elements_found : List String
  errors : List String
  next_action_hint : String
deriving DecidableEq, Repr

/-- The conservative fallback judgement. -/
def conservativeJudgement : Judgement :=
  { description := ""
    success := false
    elements_found := []
    errors := []
    next_action_hint := "unknown" }

/-- A response is malformed when it is unparseable or any field is missing. -/
def rawMalformed : Option RawVisionFields → Bool
  | none => true
  | some f =>
    f.description.isNone || f.success.isNone || f.elements_found.isNone ||
    f.errors.isNone || f.next_action_hint.isNone

/-- Modelled from the spec: the Vision Verifier validates the returned
schema and, on a malformed response or missing fields, falls back to the
conservative judgement instead of propagating a raw parse failure (the
return type is total: no exception escapes). -/
def validateVisionResponse : Option RawVisionFields → Judgement
  | none => conservativeJudgement
  | some f =>
    match f.description, f.success, f.elements_found, f.errors, f.next_action_hint with
    | some d, some s, some el, some er, some h =>
      { description := d, success := s, elements_found := el, errors := er, next_action_hint := h }
    | _, _, _, _, _ => conservativeJudgement

/-! ## Human-Behavior Modulator (Phase 8, `_human_delay` and the typing loop)

The source samples `random.uniform(min_delay, max_delay)` before every
action, `random.randint(10, 30)` mouse sub-steps, and
`random.uniform(0.05, 0.15)` per typed character.  The ambient `random`
module is a deterministic generator seeded once: it is embedded as an
explicit generator state threaded through every sample, on a millisecond
scale (so 0.5-2.0 s is 500-2000 ms and 0.05-0.15 s is 50-150 ms).
-/

/-- The state of the seedable pseudo-random generator. -/
structure Rng where
  seed : Nat
deriving DecidableEq, Repr

/-- One step of the generator (a linear congruential model of the seeded
`random` module): the draw and the successor state. -/
def rngNext (g : Rng) : Nat × Rng :=
  let s := (g.seed * 1103515245 + 12345) % 2147483648
  (s, ⟨s⟩)

/-- The sampler `random.uniform(lo, hi)` on the millisecond scale: a draw mapped into
the closed interval `[lo, hi]`. -/
def uniformMs (lo hi : Nat) (g : Rng) : Nat × Rng :=
  let (v, g2) := rngNext g
  (lo + v % (hi - lo + 1), g2)

/-- The call `_human_delay(min_delay=0.5, max_delay=2.0)`: the pre-action delay. -/
def humanDelayMs (g : Rng) : Nat × Rng :=
  uniformMs 500 2000 g

/-- The call `random.randint(10, 30)`: the number of interpolated mouse sub-steps. -/
def mouseMoveSteps (g : Rng) : Nat × Rng :=
  uniformMs 10 30 g

/-- The typing loop: one independently sampled delay
(`random.uniform(0.05, 0.15)`) per character of the text. -/
def typeCharDelays (g : Rng) : List Char → List Nat × Rng
  | [] => ([], g)
  | _ :: rest =>
    let d := uniformMs 50 150 g
    let ds := typeCharDelays d.2 rest
    (d.1 :: ds.1, ds.2)

/-- Modelled from the spec: the periodic reading pause (scroll + wait) of
the Human-Behavior Modulator, whose sampled duration is not in src/. -/
def readingPauseSample (g : Rng) : Nat × Rng :=
  uniformMs 500 2000 g

/-- Everything the modulator samples around one typed action. -/
structure HumanTrace where
  preDelayMs : Nat
  moveSteps : Nat
  charDelaysMs : List Nat
  readingPauseMs : Nat
deriving DecidableEq, Repr

/-- The full randomized trace of one action wrapped by the modulator:
pre-action delay, pointer sub-steps, per-character typing delays and the
reading pause, all drawn from the one seeded generator. -/
def modulatorTrace (text : List Char) (g : Rng) : HumanTrace × Rng :=
  let d := humanDelayMs g
  let st := mouseMoveSteps d.2
  let cs := typeCharDelays st.2 text
  let rp := readingPauseSample cs.2
  ({ preDelayMs := d.1, moveSteps := st.1, charDelaysMs := cs.1, readingPauseMs := rp.1 }, rp.2)

/-! ## Frontend handlers (SahayakMain.jsx)

`handleExecute`, the execute-button guard and the mount-time user-id
effect, embedded from the JSX source.  React state updates become a state
record transformer; the awaited axios response becomes an explicit
response value (success payload, backend failure, or network error); the
returned Bool records whether the HTTP request was issued.
-/

/-- The `command.trim()` of the source: strip leading and trailing whitespace
(String.prototype.trim), modelled over the character data of the string. -/
def jsTrim (s : String) : String :=
  ⟨((s.data.dropWhile Char.isWhitespace).reverse.dropWhile Char.isWhitespace).reverse⟩

/-- One entry of the execution log: either a payload forwarded from the
backend or the error entry built locally from the message. -/
inductive LogItem where
  | server (payload : String)
  | errMsg (msg : String)
deriving DecidableEq, Repr

/-- One entry of the recent-history list. -/
structure HistoryEntry where
  command : String
  timestamp : String
  success : Bool
deriving DecidableEq, Repr

/-- The component state touched by `handleExecute`. -/
structure AppState where
  command : String
  loading : Bool
  executionLog : List LogItem
  screenshots : List String
  history : List HistoryEntry
deriving DecidableEq, Repr

/-- The outcome of the awaited POST to `/execute`: a success body (whose
log and screenshot fields may be absent, read with `|| []` in the source),
a body with `success:false` and a message, or a thrown network error. -/
inductive ExecResponse where
  | success (execution_log : Option (List LogItem)) (shots : Option (List String))
  | failure (message : String)
  | netError (message : String)
deriving DecidableEq, Repr

/-- The `handleExecute` handler: a blank command (`!command.trim()`) only raises an
error toast and returns; otherwise loading is set, log and screenshots are
cleared, the request is sent, and the response handled — on success the
log and screenshots are stored and the command is pushed onto the history
(capped at 10 by `.slice(0, 10)`), on failure or error the log holds the
single error entry.  `now` is the ISO timestamp taken at response time;
the Bool is whether the request was issued. -/
def handleExecute (st : AppState) (resp : ExecResponse) (now : String) : AppState × Bool :=
  if jsTrim st.command = "" then
    (st, false)
  else
    let cleared := { st with loading := true, executionLog := [], screenshots := [] }
    match resp with
    | .success lg shots =>
      ({ cleared with
          executionLog := lg.getD []
          screenshots := shots.getD []
          history := ({ command := st.command, timestamp := now, success := true } :: st.history).take 10
          loading := false }, true)
    | .failure msg =>
      ({ cleared with executionLog := [.errMsg msg], loading := false }, true)
    | .netError msg =>
      ({ cleared with executionLog := [.errMsg msg], loading := false }, true)

/-- The execute-button guard: `disabled={loading || !command.trim()}`. -/
def executeDisabled (st : AppState) : Bool :=
  st.loading || decide (jsTrim st.command = "")

/-- The fresh id built on first mount:
`user_` + Date.now() + `_` + Math.random().toString(36).substr(2, 9). -/
def genUserId (nowMs : Nat) (randToken : String) : String :=
  "user_" ++ toString nowMs ++ "_" ++ randToken

/-- The mount-time effect: read `sahayak_user_id` from localStorage; a
truthy stored value (present and non-empty) is reused, otherwise a fresh
id is generated and stored.  Returns the resulting `userId` state and the
localStorage cell after the effect (`none` models an absent key). -/
def mountUserId (stored : Option String) (nowMs : Nat) (randToken : String) :
    String × Option String :=
  match stored with
  | some s =>
    if s = "" then
      let fresh := genUserId nowMs randToken
      (fresh, some fresh)
    else
      (s, some s)
  | none =>
    let fresh := genUserId nowMs randToken
    (fresh, some fresh)

/-! ## Concrete fixtures used by counterexamples and witnesses -/

/-- A one-row region 43 pixels wide: wider than twice the blur radius, so
the blur does not flatten it to a constant in one pass. -/
def cbox : Rect := ⟨0, 0, 43, 1⟩

/-- A 43 x 1 screenshot that is 0 everywhere except the last pixel. -/
def cimg : Image := [(List.range 43).map fun i => if i = 42 then 100 else 0]

/-- A vision response whose `success` field is missing. -/
def rawW : Option RawVisionFields :=
  some { description := some "page"
         success := none
         elements_found := some []
         errors := some []
         next_action_hint := some "retry" }

/-- A decision sequence that signals goal achievement at iteration 1. -/
def dW : Nat → Decision := fun i => if i = 1 then .goalAchieved else .act "continue"

/-- A component state whose command is only whitespace. -/
def stW : AppState :=
  { command := "   "
    loading := false
    executionLog := [.server "old"]
    screenshots := ["shot"]
    history := [] }

/-- A component state with a real command and empty history. -/
def stR : AppState :=
  { command := " open mail "
    loading := false
    executionLog := []
    screenshots := []
    history := [] }

/-! ## Theorems -/

theorem redactDetected_ok_iff (bs : Rect → Image → Option Image) :
    ∀ (regions : List Rect) (img out : Image),
      (redactDetected bs regions img = .ok out ↔ confirmedRedaction bs regions img out) := by
  intro regions
  induction regions with
  | nil =>
    intro img out
    simp [redactDetected, confirmedRedaction]
  | cons b rest ih =>
    intro img out
    simp only [redactDetected, confirmedRedaction, List.foldlM_cons]
    cases h : bs b img with
    | none => simp
    | some redacted =>
      have := ih redacted out
      simp only [confirmedRedaction] at this
      simpa using this

theorem redactDetected_error_iff (bs : Rect → Image → Option Image) :
    ∀ (regions : List Rect) (img : Image),
      (redactDetected bs regions img = .error .privacyViolationRisk ↔
        List.foldlM (fun acc b => bs b acc) img regions = none) := by
  intro regions
  induction regions with
  | nil =>
    intro img
    simp [redactDetected]
  | cons b rest ih =>
    intro img
    simp only [redactDetected, List.foldlM_cons]
    cases h : bs b img with
    | none => simp
    | some redacted => simpa using ih redacted

/-- Claim C1: a screenshot with detected SensitiveRegions reaches the
Vision Verifier input path only as the image obtained by redacting every
detected region in turn (each redaction confirmed); when the redaction of
any region cannot be confirmed, the engine returns PrivacyViolationRisk
instead of passing the screenshot onward. -/
theorem redactDetected_gate (bs : Rect → Image → Option Image) (regions : List Rect)
    (img : Image) :
    (∀ out, redactDetected bs regions img = .ok out ↔ confirmedRedaction bs regions img out) ∧
    (redactDetected bs regions img = .error .privacyViolationRisk ↔
      List.foldlM (fun acc b => bs b acc) img regions = none) :=
  ⟨fun out => redactDetected_ok_iff bs regions img out, redactDetected_error_iff bs regions img⟩

theorem redactDetected_gate_witness :
    redactDetected (fun _ _ => none) [⟨0, 0, 1, 1⟩] [[9]] = .error .privacyViolationRisk :=
  ((redactDetected_gate (fun _ _ => none) [⟨0, 0, 1, 1⟩] [[9]]).2).mpr (by decide)

theorem resolveAux_error_iff (ev : Strategy → Option Located) :
    ∀ (rest tried : List Strategy) (e : ResolutionError),
      (resolveAux ev tried rest = .error e ↔
        ((∀ s ∈ rest, ev s = none) ∧ e = ⟨tried ++ rest⟩)) := by
  intro rest
  induction rest with
  | nil =>
    intro tried e
    simp [resolveAux, eq_comm]
  | cons s rest ih =>
    intro tried e
    cases h : ev s with
    | some loc => simp [resolveAux, h]
    | none =>
      simp only [resolveAux, h]
      rw [ih (tried ++ [s]) e]
      simp [h, List.append_assoc]

theorem resolveAux_ok_spec (ev : Strategy → Option Located) :
    ∀ (rest tried : List Strategy) (res : Resolution),
      resolveAux ev tried rest = .ok res →
      ev res.strategy_used = some res.located ∧
      ∃ pre post, rest = pre ++ res.strategy_used :: post ∧ ∀ s ∈ pre, ev s = none := by
  intro rest
  induction rest with
  | nil =>
    intro tried res h
    simp [resolveAux] at h
  | cons s rest ih =>
    intro tried res h
    cases hs : ev s with
    | some loc =>
      simp only [resolveAux, hs] at h
      have hres : res = ⟨s, loc⟩ := by
        cases h
        rfl
      subst hres
      exact ⟨hs, [], rest, rfl, by simp⟩
    | none =>
      simp only [resolveAux, hs] at h
      obtain ⟨h1, pre, post, h2, h3⟩ := ih (tried ++ [s]) res h
      refine ⟨h1, s :: pre, post, by simp [h2], ?_⟩
      intro t ht
      rcases List.mem_cons.mp ht with rfl | ht
      · exact hs
      · exact h3 t ht

/-- Claim C2: the Selector Resolver tries exactly the five strategies of
`strategyChain` in the fixed priority order; a successful resolution is
the first Found result, with every strategy of higher priority having
returned NotFound and the successful strategy recorded; and when all five
return NotFound the result is a ResolutionError enumerating every
attempted strategy, never a silent no-op. -/
theorem resolveTarget_chain (ev : Strategy → Option Located) :
    (∀ e, resolveTarget ev = .error e ↔
      ((∀ s ∈ strategyChain, ev s = none) ∧ e = ⟨strategyChain⟩)) ∧
    (∀ res, resolveTarget ev = .ok res →
      ev res.strategy_used = some res.located ∧
      ∃ pre post, strategyChain = pre ++ res.strategy_used :: post ∧ ∀ s ∈ pre, ev s = none) := by
  constructor
  · intro e
    simpa using resolveAux_error_iff ev strategyChain [] e
  · intro res h
    exact resolveAux_ok_spec ev strategyChain [] res h

theorem resolveTarget_chain_witness :
    resolveTarget (fun _ => none) = .error ⟨strategyChain⟩ :=
  ((resolveTarget_chain (fun _ => none)).1 ⟨strategyChain⟩).mpr ⟨by decide, rfl⟩

theorem loopAux_transitions_le (decider : Nat → Decision) :
    ∀ (fuel it : Nat), (loopAux decider it fuel).1 ≤ fuel + 1 := by
  intro fuel
  induction fuel with
  | zero => intro it; simp [loopAux]
  | succ n ih =>
    intro it
    cases h : decider it with
    | goalAchieved => simp [loopAux, h]
    | fatalError => simp [loopAux, h]
    | act d =>
      simp only [loopAux, h]
      have := ih (it + 1)
      omega

theorem loopAux_cap (decider : Nat → Decision)
    (hall : ∀ j, (decider j).isAct = true) :
    ∀ (fuel it : Nat), loopAux decider it fuel = (fuel + 1, .failedIterationCap) := by
  intro fuel
  induction fuel with
  | zero => intro it; rfl
  | succ n ih =>
    intro it
    cases h : decider it with
    | act d => simp [loopAux, h, ih (it + 1)]
    | goalAchieved =>
      have := hall it
      rw [h] at this
      simp [Decision.isAct] at this
    | fatalError =>
      have := hall it
      rw [h] at this
      simp [Decision.isAct] at this

theorem loopAux_stops (decider : Nat → Decision) :
    ∀ (fuel it k : Nat), k < fuel →
      (∀ j, j < k → (decider (it + j)).isAct = true) →
      (decider (it + k) = .goalAchieved → loopAux decider it fuel = (k + 1, .completed)) ∧
      (decider (it + k) = .fatalError → loopAux decider it fuel = (k + 1, .failedFatal)) := by
  intro fuel
  induction fuel with
  | zero =>
    intro it k hk _
    exact absurd hk (by omega)
  | succ n ih =>
    intro it k hk hpre
    cases k with
    | zero =>
      constructor
      · intro hg
        rw [Nat.add_zero] at hg
        simp [loopAux, hg]
      · intro hf
        rw [Nat.add_zero] at hf
        simp [loopAux, hf]
    | succ m =>
      have h0 : (decider it).isAct = true := by
        have := hpre 0 (by omega)
        simpa using this
      cases hd : decider it with
      | goalAchieved => rw [hd] at h0; simp [Decision.isAct] at h0
      | fatalError => rw [hd] at h0; simp [Decision.isAct] at h0
      | act d =>
        have ihm := ih (it + 1) m (by omega) (fun j hj => by
          have := hpre (j + 1) (by omega)
          rwa [show it + (j + 1) = it + 1 + j by omega] at this)
        rw [show it + (m + 1) = it + 1 + m by omega]
        constructor
        · intro hg
          simp only [loopAux, hd, ihm.1 hg]
        · intro hf
          simp only [loopAux, hd, ihm.2 hf]

/-- Claim C3: for every decision sequence (so for every sequence of
verifier responses) the autonomous loop terminates within
`maxIterations + 1` state transitions; it runs to the iteration cap only
when Deciding keeps producing actions, it stops with Completed as soon as
Deciding signals goal achievement, it stops with Failed on a fatal error,
and the configured default cap is 20. -/
theorem autonomousLoop_bounded (decider : Nat → Decision) (maxIterations : Nat) :
    (autonomousLoop decider maxIterations).1 ≤ maxIterations + 1 ∧
    ((∀ j, (decider j).isAct = true) →
      autonomousLoop decider maxIterations = (maxIterations + 1, .failedIterationCap)) ∧
    (∀ k, k < maxIterations → (∀ j, j < k → (decider j).isAct = true) →
      (decider k = .goalAchieved → autonomousLoop decider maxIterations = (k + 1, .completed)) ∧
      (decider k = .fatalError → autonomousLoop decider maxIterations = (k + 1, .failedFatal))) ∧
    maxIterationsDefault = 20 := by
  refine ⟨loopAux_transitions_le decider maxIterations 0,
    fun hall => loopAux_cap decider hall maxIterations 0,
    fun k hk hpre => ?_, rfl⟩
  have := loopAux_stops decider maxIterations 0 k hk (fun j hj => by simpa using hpre j hj)
  simpa using this

theorem autonomousLoop_bounded_witness :
    (autonomousLoop dW 5).1 ≤ 5 + 1 ∧ autonomousLoop dW 5 = (1 + 1, .completed) :=
  ⟨(autonomousLoop_bounded dW 5).1,
   ((autonomousLoop_bounded dW 5).2.2.1 1 (by decide) (by decide)).1 (by decide)⟩

/-- Claim C5: a malformed or field-missing response from the external
vision capability is turned into the conservative judgement with
`success = false` and `next_action_hint = unknown`; the validator is a
total function into Judgement, so no raw parse failure reaches the
caller. -/
theorem validateVisionResponse_conservative (raw : Option RawVisionFields)
    (h : rawMalformed raw = true) :
    validateVisionResponse raw = conservativeJudgement ∧
    (validateVisionResponse raw).success = false ∧
    (validateVisionResponse raw).next_action_hint = "unknown" := by
  have hc : validateVisionResponse raw = conservativeJudgement := by
    cases raw with
    | none => rfl
    | some f =>
      obtain ⟨d, s, el, er, nh⟩ := f
      cases d <;> cases s <;> cases el <;> cases er <;> cases nh <;>
        simp_all [rawMalformed, validateVisionResponse]
  refine ⟨hc, by rw [hc]; rfl, by rw [hc]; rfl⟩

theorem validateVisionResponse_conservative_witness :
    validateVisionResponse rawW = conservativeJudgement ∧
    (validateVisionResponse rawW).success = false ∧
    (validateVisionResponse rawW).next_action_hint = "unknown" :=
  validateVisionResponse_conservative rawW (by decide)

/-- Claim C6: every delay and motion quantity the Human-Behavior Modulator
samples (pre-action delay, pointer sub-steps, per-character typing delays,
reading pause) is drawn from the one seedable generator: two runs over the
same inputs whose generators carry the same seed produce identical
traces. -/
theorem modulatorTrace_seedable (text : List Char) (g1 g2 : Rng) (h : g1.seed = g2.seed) :
    modulatorTrace text g1 = modulatorTrace text g2 := by
  have hg : g1 = g2 := by
    cases g1
    cases g2
    simpa using h
  rw [hg]

theorem modulatorTrace_seedable_witness :
    modulatorTrace "ab".toList ⟨42⟩ = modulatorTrace "ab".toList ⟨42⟩ :=
  modulatorTrace_seedable "ab".toList ⟨42⟩ ⟨42⟩ rfl

theorem uniformMs_mem (lo hi : Nat) (h : lo ≤ hi) (g : Rng) :
    lo ≤ (uniformMs lo hi g).1 ∧ (uniformMs lo hi g).1 ≤ hi := by
  have hmod : ((g.seed * 1103515245 + 12345) % 2147483648) % (hi - lo + 1) < hi - lo + 1 :=
    Nat.mod_lt _ (by omega)
  simp only [uniformMs, rngNext]
  omega

theorem typeCharDelays_spec :
    ∀ (text : List Char) (g : Rng),
      (typeCharDelays g text).1.length = text.length ∧
      ∀ d ∈ (typeCharDelays g text).1, 50 ≤ d ∧ d ≤ 150 := by
  intro text
  induction text with
  | nil => intro g; simp [typeCharDelays]
  | cons c rest ih =>
    intro g
    simp only [typeCharDelays, List.length_cons, List.mem_cons]
    constructor
    · have h1 := (ih ((uniformMs 50 150 g).2)).1
      rw [h1]
    · intro d hd
      cases hd with
      | inl hh =>
        rw [hh]
        exact uniformMs_mem 50 150 (by omega) g
      | inr hh => exact (ih ((uniformMs 50 150 g).2)).2 d hh

/-- Claim C7: the pre-action delay the modulator samples lies within the
configured interval (500-2000 ms), the pointer sub-step count lies within
10-30, and typing an n-character text issues exactly n per-character
delays, each sampled within its configured 50-150 ms interval. -/
theorem modulatorTrace_bounds (text : List Char) (g : Rng) :
    500 ≤ (modulatorTrace text g).1.preDelayMs ∧
    (modulatorTrace text g).1.preDelayMs ≤ 2000 ∧
    10 ≤ (modulatorTrace text g).1.moveSteps ∧
    (modulatorTrace text g).1.moveSteps ≤ 30 ∧
    (modulatorTrace text g).1.charDelaysMs.length = text.length ∧
    ∀ d ∈ (modulatorTrace text g).1.charDelaysMs, 50 ≤ d ∧ d ≤ 150 := by
  simp only [modulatorTrace, humanDelayMs, mouseMoveSteps]
  exact ⟨(uniformMs_mem 500 2000 (by omega) g).1,
    (uniformMs_mem 500 2000 (by omega) g).2,
    (uniformMs_mem 10 30 (by omega) _).1,
    (uniformMs_mem 10 30 (by omega) _).2,
    (typeCharDelays_spec text _).1,
    (typeCharDelays_spec text _).2⟩

theorem modulatorTrace_bounds_witness :
    500 ≤ (modulatorTrace "ab".toList ⟨3⟩).1.preDelayMs ∧
    (modulatorTrace "ab".toList ⟨3⟩).1.charDelaysMs.length = "ab".toList.length :=
  ⟨(modulatorTrace_bounds "ab".toList ⟨3⟩).1,
   (modulatorTrace_bounds "ab".toList ⟨3⟩).2.2.2.2.1⟩

/-- Claim C8: a command that is empty or whitespace-only makes
`handleExecute` return without issuing the HTTP request and without
touching the execution log, the screenshots or the history; and the
Execute button is disabled whenever the command is blank or a request is
in flight. -/
theorem handleExecute_blank_noop (st : AppState) (resp : ExecResponse) (now : String)
    (h : jsTrim st.command = "") :
    handleExecute st resp now = (st, false) ∧
    ∀ s : AppState, (s.loading = true ∨ jsTrim s.command = "") → executeDisabled s = true := by
  refine ⟨by simp [handleExecute, h], ?_⟩
  intro s hs
  rcases hs with h1 | h1 <;> simp [executeDisabled, h1]

theorem handleExecute_blank_noop_witness :
    handleExecute stW (.netError "down") "t0" = (stW, false) ∧ executeDisabled stW = true :=
  ⟨(handleExecute_blank_noop stW (.netError "down") "t0" (by decide)).1,
   (handleExecute_blank_noop stW (.netError "down") "t0" (by decide)).2 stW (Or.inr (by decide))⟩

/-- Claim C9: one run of `handleExecute` keeps the history at no more than
10 entries; on a successful response the new entry for the executed
command is pushed at the head (newest first) before the 10-entry cap is
applied, and on a backend failure or a network error the history is left
unchanged. -/
theorem handleExecute_history_cap (st : AppState) (resp : ExecResponse) (now : String)
    (h : st.history.length ≤ 10) :
    (handleExecute st resp now).1.history.length ≤ 10 ∧
    (jsTrim st.command ≠ "" → ∀ lg shots, resp = .success lg shots →
      (handleExecute st resp now).1.history =
        ({ command := st.command, timestamp := now, success := true } :: st.history).take 10) ∧
    (∀ msg, resp = .failure msg → (handleExecute st resp now).1.history = st.history) ∧
    (∀ msg, resp = .netError msg → (handleExecute st resp now).1.history = st.history) := by
  by_cases hb : jsTrim st.command = ""
  · simp [handleExecute, hb, h]
  · refine ⟨?_, ?_, ?_, ?_⟩
    · cases resp with
      | success lg shots =>
        simp only [handleExecute, if_neg hb]
        simp only [List.length_take]
        omega
      | failure msg => simpa [handleExecute, hb] using h
      | netError msg => simpa [handleExecute, hb] using h
    · rintro _ lg shots rfl
      simp [handleExecute, hb]
    · rintro msg rfl
      simp [handleExecute, hb]
    · rintro msg rfl
      simp [handleExecute, hb]

theorem handleExecute_history_cap_witness :
    (handleExecute stR (.success (some [.server "s1"]) none) "t1").1.history.length ≤ 10 ∧
    (handleExecute stR (.success (some [.server "s1"]) none) "t1").1.history =
      ({ command := stR.command, timestamp := "t1", success := true } :: stR.history).take 10 :=
  ⟨(handleExecute_history_cap stR (.success (some [.server "s1"]) none) "t1" (by decide)).1,
   (handleExecute_history_cap stR (.success (some [.server "s1"]) none) "t1" (by decide)).2.1
     (by decide) (some [.server "s1"]) none rfl⟩

theorem genUserId_ne_empty (nowMs : Nat) (tok : String) : genUserId nowMs tok ≠ "" := by
  intro h
  have h5 : ("user_" ++ toString nowMs ++ "_" ++ tok).length = "".length := by
    rw [← h]; rfl
  rw [String.length_append, String.length_append, String.length_append] at h5
  have hu : "user_".length = 5 := by decide
  have he : "".length = 0 := by decide
  omega

/-- Claim C10, counterexample: a stored but empty `sahayak_user_id` value
is present in localStorage yet is not reused — the mount effect treats the
falsy empty string like an absent key and generates a fresh id. -/
theorem mountUserId_empty_stored_not_reused :
    (mountUserId (some "") 0 "k3j9q2x1p").1 ≠ "" := by
  decide

/-- Claim C10 (amended): on mount, a stored non-empty `sahayak_user_id` is
reused as the user id; an absent or empty stored value is replaced by a
fresh generated id which is also stored; in every case the resulting user
id is non-empty and equal to the stored value, and a later mount that
reads the stored value back yields the same user id, so the id is stable
across sessions. -/
theorem mountUserId_stable (stored : Option String) (nowMs : Nat) (tok : String) :
    (∀ s, stored = some s → s ≠ "" → mountUserId stored nowMs tok = (s, some s)) ∧
    (mountUserId stored nowMs tok).1 ≠ "" ∧
    (mountUserId stored nowMs tok).2 = some (mountUserId stored nowMs tok).1 ∧
    (∀ n2 t2, mountUserId (mountUserId stored nowMs tok).2 n2 t2 =
      ((mountUserId stored nowMs tok).1, (mountUserId stored nowMs tok).2)) := by
  rcases stored with _ | s
  · have hred : mountUserId none nowMs tok =
        (genUserId nowMs tok, some (genUserId nowMs tok)) := rfl
    refine ⟨?_, ?_, ?_, ?_⟩
    · intro s hs
      exact Option.noConfusion hs
    · rw [hred]
      exact genUserId_ne_empty nowMs tok
    · rw [hred]
    · intro n2 t2
      rw [hred]
      simp only [mountUserId]
      rw [if_neg (genUserId_ne_empty nowMs tok)]
  · by_cases he : s = ""
    · subst he
      have hred : mountUserId (some "") nowMs tok =
          (genUserId nowMs tok, some (genUserId nowMs tok)) := rfl
      refine ⟨?_, ?_, ?_, ?_⟩
      · intro t ht hne
        exact absurd (Option.some.inj ht).symm hne
      · rw [hred]
        exact genUserId_ne_empty nowMs tok
      · rw [hred]
      · intro n2 t2
        rw [hred]
        simp only [mountUserId]
        rw [if_neg (genUserId_ne_empty nowMs tok)]
    · have hred : mountUserId (some s) nowMs tok = (s, some s) := by
        simp [mountUserId, he]
      refine ⟨?_, ?_, ?_, ?_⟩
      · intro t ht hne
        have hst : s = t := Option.some.inj ht
        rw [← hst, hred]
      · rw [hred]
        exact he
      · rw [hred]
      · intro n2 t2
        rw [hred]
        simp [mountUserId, he]

theorem mountUserId_stable_witness :
    mountUserId (some "u1") 0 "tok" = ("u1", some "u1") :=
  (mountUserId_stable (some "u1") 0 "tok").1 "u1" rfl (by decide)

theorem blurRow_get (r : Nat) (img : Image) (b : Rect) (py : Nat) :
    ∀ (row : List Nat) (px0 i : Nat),
      (blurRow r img b py px0 row).get? i =
        (row.get? i).map fun v =>
          if b.containsPt (px0 + i) py then blurredAt r img b (px0 + i) py else v := by
  intro row
  induction row with
  | nil => intro px0 i; simp [blurRow]
  | cons v rest ih =>
    intro px0 i
    cases i with
    | zero => simp [blurRow]
    | succ n =>
      simp only [blurRow, List.get?_cons_succ]
      rw [ih (px0 + 1) n, show px0 + 1 + n = px0 + (n + 1) from by omega]

theorem blurRows_get (r : Nat) (img : Image) (b : Rect) :
    ∀ (rows : List (List Nat)) (py0 j : Nat),
      (blurRows r img b py0 rows).get? j =
        (rows.get? j).map fun row => blurRow r img b (py0 + j) 0 row := by
  intro rows
  induction rows with
  | nil => intro py0 j; simp [blurRows]
  | cons row rest ih =>
    intro py0 j
    cases j with
    | zero => simp [blurRows]
    | succ n =>
      simp only [blurRows, List.get?_cons_succ]
      rw [ih (py0 + 1) n, show py0 + 1 + n = py0 + (n + 1) from by omega]

theorem pixel_blurRegion_outside (r : Nat) (img : Image) (b : Rect) (px py : Nat)
    (h : b.containsPt px py = false) :
    pixel (blurRegion r img b) px py = pixel img px py := by
  unfold pixel blurRegion
  rw [blurRows_get]
  cases hrow : img.get? py with
  | none => rfl
  | some row =>
    simp only [Nat.zero_add, Option.map_some', Option.getD_some]
    rw [blurRow_get]
    cases hv : row.get? px with
    | none => rfl
    | some v => simp [Nat.zero_add, h]

theorem pixel_blurSensitiveAreas_outside :
    ∀ (regions : List Rect) (img : Image) (px py : Nat),
      (∀ b ∈ regions, b.containsPt px py = false) →
      pixel (blurSensitiveAreas regions img) px py = pixel img px py := by
  intro regions
  induction regions with
  | nil => intro img px py _; rfl
  | cons b rest ih =>
    intro img px py h
    have hb : b.containsPt px py = false := h b (List.mem_cons_self b rest)
    have hrest : ∀ c ∈ rest, c.containsPt px py = false :=
      fun c hc => h c (List.mem_cons_of_mem b hc)
    calc pixel (blurSensitiveAreas (b :: rest) img) px py
        = pixel (blurSensitiveAreas rest (blurRegion 20 img b)) px py := rfl
      _ = pixel (blurRegion 20 img b) px py := ih (blurRegion 20 img b) px py hrest
      _ = pixel img px py := pixel_blurRegion_outside 20 img b px py hb

/-- Claim C4, counterexample: on the 43 x 1 screenshot `cimg` with the
detected region `cbox`, redacting the already-redacted screenshot is not
pixel-identical to the single redaction — the blur averages the region
again and the pixels inside the box move (pixel 42 goes from 4 to 2). -/
theorem blurSensitiveAreas_not_idempotent :
    blurSensitiveAreas [cbox] (blurSensitiveAreas [cbox] cimg) ≠
      blurSensitiveAreas [cbox] cimg := by
  decide

/-- Claim C4 (amended): the redaction transform is not idempotent — a
second application re-blurs the detected regions — but it is idempotent
outside them: every pixel lying in no detected region has the same value
in the twice-redacted screenshot as in the once-redacted one (and, by the
same argument, as in the raw screenshot). -/
theorem blurSensitiveAreas_second_pass_outside (regions : List Rect) (img : Image)
    (px py : Nat) (h : ∀ b ∈ regions, b.containsPt px py = false) :
    pixel (blurSensitiveAreas regions (blurSensitiveAreas regions img)) px py =
      pixel (blurSensitiveAreas regions img) px py :=
  pixel_blurSensitiveAreas_outside regions (blurSensitiveAreas regions img) px py h

theorem blurSensitiveAreas_second_pass_outside_witness :
    pixel (blurSensitiveAreas [⟨0, 0, 2, 1⟩] (blurSensitiveAreas [⟨0, 0, 2, 1⟩] [[5, 7, 9]])) 2 0 =
      pixel (blurSensitiveAreas [⟨0, 0, 2, 1⟩] [[5, 7, 9]]) 2 0 :=
  blurSensitiveAreas_second_pass_outside [⟨0, 0, 2, 1⟩] [[5, 7, 9]] 2 0 (by decide)

end Sahayak
